import Mathlib

set_option maxRecDepth 40000

/-!
Verification of the `frappe` route-history pruning job and the Jinja
wrapper utilities (`frappe/desk/doctype/route_history/route_history.py`
and `frappe/utils/jinja.py`) against their natural-language specification.

The database table `tabRoute History` is modelled as a list of rows, each
carrying the columns the pruning job reads (`name` is the primary key,
`user` the owner, `modified` the modification timestamp; both `user` and
`modified` are abstracted to `Nat`).  The SQL statements issued by
`flush_old_route_records` are modelled by their documented semantics:
`GROUP BY user HAVING count(name) > limit` yields the distinct users with
more than `limit` rows, `get_all(..., order_by='modified desc',
limit_start=500, limit=1)` yields the `modified` value at offset 500 of
the user's rows sorted by decreasing `modified`, and
`db.delete(filters)` removes every row matching the filters.
-/

namespace RouteHistory

structure Row where
  name : Nat
  user : Nat
  modified : Nat
deriving DecidableEq, Repr

/-- `records_to_keep_limit` from `flush_old_route_records`. -/
def recordsToKeepLimit : Nat := 500

/-- The rows of a single user, in table order (`WHERE user = u`). -/
def userRows (db : List Row) (u : Nat) : List Row :=
  db.filter (fun r => r.user = u)

/-- The `modified` column of a user's rows. -/
def userMods (db : List Row) (u : Nat) : List Nat :=
  (userRows db u).map Row.modified

/-- The user's `modified` values in decreasing order
(`ORDER BY modified DESC`). -/
def sortedModsDesc (db : List Row) (u : Nat) : List Nat :=
  (userMods db u).insertionSort (· ≥ ·)

/-- The boundary timestamp read by
`get_all(..., fields=['modified'], order_by='modified desc', limit=1,
limit_start=500)`: the `modified` value at offset 500 of the
decreasing-`modified` ordering of the user's rows (`none` when the user
has at most 500 rows, in which case the Python code would hit an
`IndexError`; the job only reaches this query for users with more than
500 rows). -/
def boundaryMod (db : List Row) (u : Nat) : Option Nat :=
  (sortedModsDesc db u)[recordsToKeepLimit]?

/-- The `SELECT user FROM tabRoute History GROUP BY user HAVING
count(name) > 500` query: distinct users owning more than
`recordsToKeepLimit` rows. -/
def usersOverLimit (db : List Row) : List Nat :=
  ((db.map Row.user).dedup).filter
    (fun u => recordsToKeepLimit < (userRows db u).length)

/-- One iteration of the loop body of `flush_old_route_records`:
`db.delete("Route History", {"modified": ("<=", boundary), "user": u})`. -/
def deleteFor (db : List Row) (u : Nat) : List Row :=
  match boundaryMod db u with
  | some b => db.filter (fun r => ¬(r.user = u ∧ r.modified ≤ b))
  | none => db

/-- `flush_old_route_records`: for every user over the limit, delete all
of that user's rows whose `modified` is at or below the boundary. -/
def flush_old_route_records (db : List Row) : List Row :=
  (usersOverLimit db).foldl deleteFor db

/-! ### Basic lemmas about the pruning job -/

theorem userRows_filter (db : List Row) (u : Nat) (p : Row → Bool) :
    userRows (db.filter p) u = (userRows db u).filter p := by
  simp only [userRows, List.filter_filter]
  apply List.filter_congr
  intro r _
  simp [Bool.and_comm]

theorem deleteFor_userRows_ne (db : List Row) (u v : Nat) (h : v ≠ u) :
    userRows (deleteFor db u) v = userRows db v := by
  unfold deleteFor
  cases hb : boundaryMod db u with
  | none => rfl
  | some b =>
      rw [userRows_filter]
      apply List.filter_eq_self.2
      intro r hr
      have hru : r.user = v := by
        have := List.mem_filter.1 hr
        exact of_decide_eq_true this.2
      simp [hru, h]

theorem boundaryMod_congr (db db' : List Row) (u : Nat)
    (h : userRows db u = userRows db' u) :
    boundaryMod db u = boundaryMod db' u := by
  unfold boundaryMod sortedModsDesc userMods
  rw [h]

theorem deleteFor_userRows_self (db : List Row) (u b : Nat)
    (hb : boundaryMod db u = some b) :
    userRows (deleteFor db u) u
      = (userRows db u).filter (fun r => b < r.modified) := by
  unfold deleteFor
  rw [hb, userRows_filter]
  apply List.filter_congr
  intro r hr
  have hru : r.user = u := by
    have := List.mem_filter.1 hr
    exact of_decide_eq_true this.2
  simp [hru, decide_eq_decide, Nat.not_le]

theorem foldl_deleteFor_not_mem (us : List Nat) (db : List Row) (v : Nat)
    (hv : v ∉ us) :
    userRows (us.foldl deleteFor db) v = userRows db v := by
  induction us generalizing db with
  | nil => rfl
  | cons u rest ih =>
      rw [List.foldl_cons]
      have hvr : v ∉ rest := fun h => hv (List.mem_cons_of_mem _ h)
      have hvu : v ≠ u := fun h => hv (h ▸ List.mem_cons_self _ _)
      rw [ih (deleteFor db u) hvr, deleteFor_userRows_ne db u v hvu]

theorem foldl_deleteFor_mem (us : List Nat) (db : List Row) (v : Nat)
    (hnd : us.Nodup) (hv : v ∈ us) (b : Nat)
    (hb : boundaryMod db v = some b) :
    userRows (us.foldl deleteFor db) v
      = (userRows db v).filter (fun r => b < r.modified) := by
  induction us generalizing db with
  | nil => cases hv
  | cons u rest ih =>
      rw [List.foldl_cons]
      rcases List.mem_cons.1 hv with rfl | hvr
      · have hur : v ∉ rest := (List.nodup_cons.1 hnd).1
        rw [foldl_deleteFor_not_mem rest _ v hur]
        exact deleteFor_userRows_self db v b hb
      · have hvu : v ≠ u := by
          intro h
          exact (List.nodup_cons.1 hnd).1 (h ▸ hvr)
        have h1 : userRows (deleteFor db u) v = userRows db v :=
          deleteFor_userRows_ne db u v hvu
        have hb' : boundaryMod (deleteFor db u) v = some b := by
          rw [boundaryMod_congr _ db v h1, hb]
        rw [ih (deleteFor db u) (List.nodup_cons.1 hnd).2 hvr hb', h1]

theorem mem_usersOverLimit (db : List Row) (u : Nat) :
    u ∈ usersOverLimit db ↔ recordsToKeepLimit < (userRows db u).length := by
  unfold usersOverLimit
  rw [List.mem_filter]
  constructor
  · intro h
    exact of_decide_eq_true h.2
  · intro h
    refine ⟨List.mem_dedup.2 ?_, decide_eq_true h⟩
    have hne : userRows db u ≠ [] := by
      intro hnil
      rw [hnil] at h
      exact absurd h (by decide)
    rcases List.exists_mem_of_ne_nil _ hne with ⟨r, hr⟩
    have := List.mem_filter.1 hr
    have hru : r.user = u := of_decide_eq_true this.2
    exact hru ▸ List.mem_map_of_mem Row.user this.1

theorem usersOverLimit_nodup (db : List Row) : (usersOverLimit db).Nodup :=
  (List.nodup_dedup _).filter _

theorem boundaryMod_isSome (db : List Row) (u : Nat)
    (h : recordsToKeepLimit < (userRows db u).length) :
    ∃ b, boundaryMod db u = some b := by
  have hlen : recordsToKeepLimit < (sortedModsDesc db u).length := by
    unfold sortedModsDesc userMods
    rw [List.length_insertionSort, List.length_map]
    exact h
  exact ⟨_, List.getElem?_eq_getElem hlen⟩

theorem userRows_flush (db : List Row) (u b : Nat)
    (hcount : recordsToKeepLimit < (userRows db u).length)
    (hb : boundaryMod db u = some b) :
    userRows (flush_old_route_records db) u
      = (userRows db u).filter (fun r => b < r.modified) :=
  foldl_deleteFor_mem (usersOverLimit db) db u (usersOverLimit_nodup db)
    ((mem_usersOverLimit db u).2 hcount) b hb

theorem countP_lt_le_of_sorted (l : List Nat) (hs : l.Sorted (· ≥ ·))
    (i : Nat) (b : Nat) (hb : l[i]? = some b) :
    l.countP (fun x => b < x) ≤ i := by
  rcases List.getElem?_eq_some.1 hb with ⟨hi, hib⟩
  have hdrop : l.drop i = b :: l.drop (i + 1) := by
    rw [List.drop_eq_getElem_cons hi, hib]
  have hs' : (l.drop i).Sorted (· ≥ ·) :=
    List.Pairwise.sublist (List.drop_sublist i l) hs
  have h2 : (l.drop i).countP (fun x => decide (b < x)) = 0 := by
    apply List.countP_eq_zero.2
    intro x hx
    rw [hdrop] at hx hs'
    rcases List.mem_cons.1 hx with rfl | hx2
    · simp
    · have hbx : b ≥ x := (List.sorted_cons.1 hs').1 x hx2
      simp [Nat.not_lt.2 hbx]
  calc l.countP (fun x => decide (b < x))
      = (l.take i ++ l.drop i).countP (fun x => decide (b < x)) := by
        rw [List.take_append_drop]
    _ = (l.take i).countP (fun x => decide (b < x))
        + (l.drop i).countP (fun x => decide (b < x)) := by
        rw [List.countP_append]
    _ ≤ i + 0 := by
        apply Nat.add_le_add _ (Nat.le_of_eq h2)
        calc (l.take i).countP (fun x => decide (b < x))
            ≤ (l.take i).length := List.countP_le_length _
          _ ≤ i := by rw [List.length_take]; exact Nat.min_le_left _ _
    _ = i := Nat.add_zero i

/-- A `tabRoute History` table with a single user `7` owning 501 rows, all
sharing the boundary timestamp `5`. -/
def demoDb : List Row :=
  (List.range 501).map (fun i => Row.mk i 7 5)

/-- A `tabRoute History` table with a single user `1` owning one row. -/
def smallDb : List Row :=
  [Row.mk 0 1 10]

/-- C1: for every user with more than 500 route-history rows,
`flush_old_route_records` deletes exactly the rows whose `modified` is at
or below the `modified` of the boundary row for that user — the row
reached after skipping the 500 most recent rows in decreasing-`modified`
order (`limit_start=500`), ties at that timestamp included. -/
theorem flush_deletes_iff_le_boundary (db : List Row) (u b : Nat)
    (hcount : recordsToKeepLimit < (userRows db u).length)
    (hb : boundaryMod db u = some b)
    (r : Row) (hr : r ∈ db) (hu : r.user = u) :
    r ∉ flush_old_route_records db ↔ r.modified ≤ b := by
  have hmem : r ∈ userRows db u := List.mem_filter.2 ⟨hr, decide_eq_true hu⟩
  have hflush := userRows_flush db u b hcount hb
  have key : r ∈ flush_old_route_records db ↔ b < r.modified := by
    constructor
    · intro h
      have h1 : r ∈ userRows (flush_old_route_records db) u :=
        List.mem_filter.2 ⟨h, decide_eq_true hu⟩
      rw [hflush] at h1
      exact of_decide_eq_true (List.mem_filter.1 h1).2
    · intro h
      have h1 : r ∈ userRows (flush_old_route_records db) u := by
        rw [hflush]
        exact List.mem_filter.2 ⟨hmem, decide_eq_true h⟩
      exact (List.mem_filter.1 h1).1
  constructor
  · intro h
    exact Nat.not_lt.1 (fun hlt => h (key.2 hlt))
  · intro h hmem2
    exact absurd (key.1 hmem2) (Nat.not_lt.2 h)

/-- C1 witness: in `demoDb` user `7` has 501 rows, all with `modified = 5`;
the boundary timestamp is `5`, so the row `⟨0, 7, 5⟩` is deleted. -/
theorem flush_deletes_iff_le_boundary_witness :
    Row.mk 0 7 5 ∉ flush_old_route_records demoDb :=
  (flush_deletes_iff_le_boundary demoDb 7 5 (by decide) (by decide)
    (Row.mk 0 7 5) (by decide) rfl).mpr (by decide)

/-- C4: for every user with more than 500 rows before the flush, at most
500 rows remain afterwards, and every remaining row's `modified` is at
least every deleted row's `modified` for that user. -/
theorem flush_user_bounded (db : List Row) (u : Nat)
    (hcount : recordsToKeepLimit < (userRows db u).length) :
    (userRows (flush_old_route_records db) u).length ≤ recordsToKeepLimit ∧
    ∀ r ∈ flush_old_route_records db, r.user = u →
      ∀ r2 ∈ db, r2.user = u → r2 ∉ flush_old_route_records db →
        r2.modified ≤ r.modified := by
  rcases boundaryMod_isSome db u hcount with ⟨b, hb⟩
  have hflush := userRows_flush db u b hcount hb
  constructor
  · rw [hflush, ← List.countP_eq_length_filter]
    have h1 : (userRows db u).countP (fun r => decide (b < r.modified))
        = (userMods db u).countP (fun m => decide (b < m)) := by
      unfold userMods
      rw [List.countP_map]
      rfl
    rw [h1,
      ← (List.perm_insertionSort (· ≥ ·) (userMods db u)).countP_eq]
    exact countP_lt_le_of_sorted (sortedModsDesc db u)
      (List.sorted_insertionSort (· ≥ ·) (userMods db u))
      recordsToKeepLimit b hb
  · intro r hrf hru r2 hr2 hru2 hnr2
    have h1 : b < r.modified := by
      have hm : r ∈ userRows (flush_old_route_records db) u :=
        List.mem_filter.2 ⟨hrf, decide_eq_true hru⟩
      rw [hflush] at hm
      exact of_decide_eq_true (List.mem_filter.1 hm).2
    have h2 : r2.modified ≤ b := by
      by_contra h
      apply hnr2
      have hm2 : r2 ∈ userRows db u :=
        List.mem_filter.2 ⟨hr2, decide_eq_true hru2⟩
      have : r2 ∈ userRows (flush_old_route_records db) u := by
        rw [hflush]
        exact List.mem_filter.2 ⟨hm2, decide_eq_true (Nat.not_le.1 h)⟩
      exact (List.mem_filter.1 this).1
    exact Nat.le_trans h2 (Nat.le_of_lt h1)

/-- C4 witness: after the flush, user `7` of `demoDb` is left with at most
500 rows. -/
theorem flush_user_bounded_witness :
    (userRows (flush_old_route_records demoDb) 7).length
      ≤ recordsToKeepLimit :=
  (flush_user_bounded demoDb 7 (by decide)).1

/-- C5: a user with at most 500 rows (including exactly 500) is untouched
by `flush_old_route_records`: that user's rows are unchanged. -/
theorem flush_small_user_unchanged (db : List Row) (u : Nat)
    (h : (userRows db u).length ≤ recordsToKeepLimit) :
    userRows (flush_old_route_records db) u = userRows db u := by
  apply foldl_deleteFor_not_mem
  intro hmem
  exact absurd ((mem_usersOverLimit db u).1 hmem) (Nat.not_lt.2 h)

/-- C5 witness: the single-row user `1` of `smallDb` keeps its rows. -/
theorem flush_small_user_unchanged_witness :
    userRows (flush_old_route_records smallDb) 1 = userRows smallDb 1 :=
  flush_small_user_unchanged smallDb 1 (by decide)

end RouteHistory

/-!
### The Jinja wrapper module (`frappe/utils/jinja.py`)

The template engine itself (compilation, sandboxed evaluation, the
loader search path) is external to the repository; the embedding keeps
the wrapper's own control flow and data manipulation exact and records
which external operation would be invoked (path render, inline render)
or which failure the wrapper itself raises.  Python values appearing in
template contexts are modelled by `Jinja.Val`; Python `dict` update
semantics (later keys win, first-insertion order kept) by
`dset`/`dupdate`.
-/

namespace Jinja

/-- A Python value as handled by `resolve_class` and template contexts. -/
inductive Val where
  | none
  | str (s : String)
  | bool (b : Bool)
  | int (n : Int)
  | list (xs : List Val)
  | tuple (xs : List Val)
  | dict (kvs : List (String × Val))

mutual

def decEqVal : (a b : Val) → Decidable (a = b)
  | Val.none, Val.none => isTrue rfl
  | Val.none, Val.str _ => isFalse (fun h => Val.noConfusion h)
  | Val.none, Val.bool _ => isFalse (fun h => Val.noConfusion h)
  | Val.none, Val.int _ => isFalse (fun h => Val.noConfusion h)
  | Val.none, Val.list _ => isFalse (fun h => Val.noConfusion h)
  | Val.none, Val.tuple _ => isFalse (fun h => Val.noConfusion h)
  | Val.none, Val.dict _ => isFalse (fun h => Val.noConfusion h)
  | Val.str _, Val.none => isFalse (fun h => Val.noConfusion h)
  | Val.str x, Val.str y =>
      if h : x = y then isTrue (h ▸ rfl)
      else isFalse (fun hh => h (Val.str.inj hh))
  | Val.str _, Val.bool _ => isFalse (fun h => Val.noConfusion h)
  | Val.str _, Val.int _ => isFalse (fun h => Val.noConfusion h)
  | Val.str _, Val.list _ => isFalse (fun h => Val.noConfusion h)
  | Val.str _, Val.tuple _ => isFalse (fun h => Val.noConfusion h)
  | Val.str _, Val.dict _ => isFalse (fun h => Val.noConfusion h)
  | Val.bool _, Val.none => isFalse (fun h => Val.noConfusion h)
  | Val.bool _, Val.str _ => isFalse (fun h => Val.noConfusion h)
  | Val.bool x, Val.bool y =>
      if h : x = y then isTrue (h ▸ rfl)
      else isFalse (fun hh => h (Val.bool.inj hh))
  | Val.bool _, Val.int _ => isFalse (fun h => Val.noConfusion h)
  | Val.bool _, Val.list _ => isFalse (fun h => Val.noConfusion h)
  | Val.bool _, Val.tuple _ => isFalse (fun h => Val.noConfusion h)
  | Val.bool _, Val.dict _ => isFalse (fun h => Val.noConfusion h)
  | Val.int _, Val.none => isFalse (fun h => Val.noConfusion h)
  | Val.int _, Val.str _ => isFalse (fun h => Val.noConfusion h)
  | Val.int _, Val.bool _ => isFalse (fun h => Val.noConfusion h)
  | Val.int x, Val.int y =>
      if h : x = y then isTrue (h ▸ rfl)
      else isFalse (fun hh => h (Val.int.inj hh))
  | Val.int _, Val.list _ => isFalse (fun h => Val.noConfusion h)
  | Val.int _, Val.tuple _ => isFalse (fun h => Val.noConfusion h)
  | Val.int _, Val.dict _ => isFalse (fun h => Val.noConfusion h)
  | Val.list _, Val.none => isFalse (fun h => Val.noConfusion h)
  | Val.list _, Val.str _ => isFalse (fun h => Val.noConfusion h)
  | Val.list _, Val.bool _ => isFalse (fun h => Val.noConfusion h)
  | Val.list _, Val.int _ => isFalse (fun h => Val.noConfusion h)
  | Val.list x, Val.list y =>
      match decEqValList x y with
      | isTrue h => isTrue (h ▸ rfl)
      | isFalse h => isFalse (fun hh => h (Val.list.inj hh))
  | Val.list _, Val.tuple _ => isFalse (fun h => Val.noConfusion h)
  | Val.list _, Val.dict _ => isFalse (fun h => Val.noConfusion h)
  | Val.tuple _, Val.none => isFalse (fun h => Val.noConfusion h)
  | Val.tuple _, Val.str _ => isFalse (fun h => Val.noConfusion h)
  | Val.tuple _, Val.bool _ => isFalse (fun h => Val.noConfusion h)
  | Val.tuple _, Val.int _ => isFalse (fun h => Val.noConfusion h)
  | Val.tuple _, Val.list _ => isFalse (fun h => Val.noConfusion h)
  | Val.tuple x, Val.tuple y =>
      match decEqValList x y with
      | isTrue h => isTrue (h ▸ rfl)
      | isFalse h => isFalse (fun hh => h (Val.tuple.inj hh))
  | Val.tuple _, Val.dict _ => isFalse (fun h => Val.noConfusion h)
  | Val.dict _, Val.none => isFalse (fun h => Val.noConfusion h)
  | Val.dict _, Val.str _ => isFalse (fun h => Val.noConfusion h)
  | Val.dict _, Val.bool _ => isFalse (fun h => Val.noConfusion h)
  | Val.dict _, Val.int _ => isFalse (fun h => Val.noConfusion h)
  | Val.dict _, Val.list _ => isFalse (fun h => Val.noConfusion h)
  | Val.dict _, Val.tuple _ => isFalse (fun h => Val.noConfusion h)
  | Val.dict x, Val.dict y =>
      match decEqValKvs x y with
      | isTrue h => isTrue (h ▸ rfl)
      | isFalse h => isFalse (fun hh => h (Val.dict.inj hh))

def decEqValList : (a b : List Val) → Decidable (a = b)
  | [], [] => isTrue rfl
  | [], _ :: _ => isFalse (fun h => List.noConfusion h)
  | _ :: _, [] => isFalse (fun h => List.noConfusion h)
  | a :: as, b :: bs =>
      match decEqVal a b with
      | isFalse h => isFalse (fun hh => h (List.cons.inj hh).1)
      | isTrue h1 =>
          match decEqValList as bs with
          | isFalse h => isFalse (fun hh => h (List.cons.inj hh).2)
          | isTrue h2 => isTrue (h1 ▸ h2 ▸ rfl)

def decEqValKvs : (a b : List (String × Val)) → Decidable (a = b)
  | [], [] => isTrue rfl
  | [], _ :: _ => isFalse (fun h => List.noConfusion h)
  | _ :: _, [] => isFalse (fun h => List.noConfusion h)
  | (s, v) :: as, (t, w) :: bs =>
      if hs : s = t then
        match decEqVal v w with
        | isFalse h =>
            isFalse (fun hh => h (congrArg Prod.snd (List.cons.inj hh).1))
        | isTrue h1 =>
            match decEqValKvs as bs with
            | isFalse h => isFalse (fun hh => h (List.cons.inj hh).2)
            | isTrue h2 => isTrue (hs ▸ h1 ▸ h2 ▸ rfl)
      else
        isFalse (fun hh => hs (congrArg Prod.fst (List.cons.inj hh).1))

end

instance : DecidableEq Val := decEqVal

instance exceptDecEq {e a : Type} [DecidableEq e] [DecidableEq a] :
    DecidableEq (Except e a)
  | Except.ok x, Except.ok y =>
      if h : x = y then isTrue (h ▸ rfl)
      else isFalse (fun hh => h (Except.ok.inj hh))
  | Except.ok _, Except.error _ => isFalse (fun h => Except.noConfusion h)
  | Except.error _, Except.ok _ => isFalse (fun h => Except.noConfusion h)
  | Except.error x, Except.error y =>
      if h : x = y then isTrue (h ▸ rfl)
      else isFalse (fun hh => h (Except.error.inj hh))

/-- Python truthiness of a `Val` (`if classes[classname]:`). -/
def truthy : Val → Bool
  | Val.none => false
  | Val.str s => !s.isEmpty
  | Val.bool b => b
  | Val.int n => n != 0
  | Val.list xs => !xs.isEmpty
  | Val.tuple xs => !xs.isEmpty
  | Val.dict kvs => !kvs.isEmpty

/-- The ASCII whitespace characters stripped by Python `str.strip()`. -/
def isPySpace (c : Char) : Bool :=
  c = ' ' ∨ c = '\t' ∨ c = '\n' ∨ c = '\r' ∨ c = '\x0b' ∨ c = '\x0c'

/-- Python `str.strip()` (whitespace removed from both ends). -/
def pyStrip (s : String) : String :=
  String.mk (((s.data.dropWhile isPySpace).reverse.dropWhile isPySpace).reverse)

/-- The `str` check applied by `' '.join` to each sequence item. -/
def asStr : Val → Except String String
  | Val.str s => Except.ok s
  | _ => Except.error "TypeError: sequence item: expected str instance"

/-- Python `' '.join(xs)`: every element must be a `str`, otherwise a
`TypeError` is raised. -/
def pyJoinSpace (xs : List Val) : Except String String :=
  match xs.mapM asStr with
  | Except.ok ss => Except.ok (String.intercalate " " ss)
  | Except.error e => Except.error e

mutual

/-- `resolve_class` from `frappe/utils/jinja.py`: `None` becomes `''`,
strings pass through, lists and tuples are resolved recursively and
space-joined then stripped, dicts are reduced to the space-joined,
stripped sequence of keys with truthy values, anything else passes
through unchanged.  A `TypeError` from `' '.join` propagates. -/
def resolve_class : Val → Except String Val
  | Val.none => Except.ok (Val.str "")
  | Val.str s => Except.ok (Val.str s)
  | Val.list xs =>
      match resolveList xs with
      | Except.error e => Except.error e
      | Except.ok rs =>
          match pyJoinSpace rs with
          | Except.error e => Except.error e
          | Except.ok j => Except.ok (Val.str (pyStrip j))
  | Val.tuple xs =>
      match resolveList xs with
      | Except.error e => Except.error e
      | Except.ok rs =>
          match pyJoinSpace rs with
          | Except.error e => Except.error e
          | Except.ok j => Except.ok (Val.str (pyStrip j))
  | Val.dict kvs =>
      Except.ok (Val.str (pyStrip (String.intercalate " "
        ((kvs.filter (fun kv => truthy kv.2)).map Prod.fst))))
  | Val.bool b => Except.ok (Val.bool b)
  | Val.int n => Except.ok (Val.int n)

/-- The list comprehension `[resolve_class(c) for c in classes]`,
left-to-right, first failure propagating. -/
def resolveList : List Val → Except String (List Val)
  | [] => Except.ok []
  | v :: vs =>
      match resolve_class v with
      | Except.error e => Except.error e
      | Except.ok r =>
          match resolveList vs with
          | Except.error e => Except.error e
          | Except.ok rs => Except.ok (r :: rs)

end

/-- Python substring test on character lists (`pat in s`). -/
def containsSub (pat : List Char) : List Char → Bool
  | [] => pat.isEmpty
  | c :: rest => List.isPrefixOf pat (c :: rest) || containsSub pat rest

/-- Python `pat in s` on strings. -/
def strContains (s pat : String) : Bool := containsSub pat.data s.data

/-- Python `s.startswith(pre)`. -/
def pyStartsWith (s pre : String) : Bool := List.isPrefixOf pre.data s.data

/-- The characters after the last `'.'` of `cs`:
Python `template.rsplit('.')[-1]` when `'.' in template`. -/
def extnAfterLastDot (cs : List Char) : List Char :=
  (cs.reverse.takeWhile (fun c => c ≠ '.')).reverse

/-- `guess_is_path` from `frappe/utils/jinja.py`: a single-line string
containing a dot whose final extension is `html`, `css`, `scss` or
`py`. -/
def guess_is_path (template : String) : Bool :=
  if '\n' ∉ template.data ∧ '.' ∈ template.data then
    decide (extnAfterLastDot template.data ∈
      ["html".data, "css".data, "scss".data, "py".data])
  else
    false

/-- A template-render context (`dict` of named values). -/
abbrev Ctx := List (String × Val)

/-- The observable outcome of `render_template`: a string returned
without invoking the engine, a by-path render, an inline
(`from_string`) compile-and-render, or the `frappe.throw("Illegal
template")` failure. -/
inductive RenderOutcome where
  | ok (s : String)
  | renderedPath (template : String) (context : Ctx)
  | renderedInline (template : String) (context : Ctx)
  | threwIllegal
deriving DecidableEq

/-- `render_template` from `frappe/utils/jinja.py` (`is_path = false`
models the default `None` argument). -/
def render_template (template : String) (context : Ctx)
    (is_path : Bool) (safe_render : Bool) : RenderOutcome :=
  if template = "" then RenderOutcome.ok ""
  else if is_path || guess_is_path template then
    RenderOutcome.renderedPath template context
  else if safe_render && strContains template ".__" then
    RenderOutcome.threwIllegal
  else
    RenderOutcome.renderedInline template context

/-- A Python value reaching the `+` operator in the front-matter error
handler: a `str` or an `Exception`. -/
inductive PyVal where
  | str (s : String)
  | exc (msg : String)
deriving DecidableEq

/-- Python `+` on such values: `str + str` concatenates, `str +
Exception` raises `TypeError`. -/
def pyAdd : PyVal → PyVal → Except String PyVal
  | PyVal.str a, PyVal.str b => Except.ok (PyVal.str (a ++ b))
  | PyVal.str _, PyVal.exc _ =>
      Except.error "TypeError: can only concatenate str (not Exception) to str"
  | PyVal.exc _, _ =>
      Except.error "TypeError: unsupported operand type for +"

/-- The outcome of the external `Frontmatter.read(source)`: parsed
attributes and body, or a raised parse exception. -/
structure FMRead where
  attributes : List (String × Val)
  body : String
deriving DecidableEq

/-- `parse_front_matter_attrs_and_html` from `frappe/utils/jinja.py`.
`read` is the outcome of the external `Frontmatter.read(source)` call.
When that call raises, the handler executes
`print('Error parsing Frontmatter in template: ' + e)` — a `str +
Exception` addition — so the handler itself raises `TypeError`
(modelled by `pyAdd`); had the addition produced a string, the function
would have logged it and returned the fail-open result. -/
def parse_front_matter_attrs_and_html (source : String)
    (read : Except String FMRead) :
    Except String (List (String × Val) × String) :=
  if !pyStartsWith source "---" then Except.ok ([], source)
  else
    match read with
    | Except.ok res =>
        if res.attributes.isEmpty then Except.ok ([], source)
        else Except.ok (res.attributes, res.body)
    | Except.error e =>
        match pyAdd (PyVal.str "Error parsing Frontmatter in template: ")
            (PyVal.exc e) with
        | Except.ok _ => Except.ok ([], source)
        | Except.error t => Except.error t

/-- Python `d[k] = v` on a `dict` modelled as an association list in
key-insertion order (keys are unique in a Python `dict`): overwrite the
entry in place if the key exists, append otherwise. -/
def dset : Ctx → String → Val → Ctx
  | [], k, v => [(k, v)]
  | (a, w) :: rest, k, v =>
      if a = k then (k, v) :: rest else (a, w) :: dset rest k v

/-- Python `d.update(e)`: set each entry of `e` in order. -/
def dupdate (d e : Ctx) : Ctx :=
  e.foldl (fun acc kv => dset acc kv.1 kv.2) d

/-- Python `d.get(k)` / `d[k]`. -/
def dget : Ctx → String → Option Val
  | [], _ => Option.none
  | (a, w) :: rest, k => if a = k then some w else dget rest k

/-- The `class` normalization in `component`: an existing `class` entry
is replaced by `resolve_class` of its value, a missing one is set to
`''`. -/
def normalizeClassCtx (ctx : Ctx) : Except String Ctx :=
  match dget ctx "class" with
  | some v =>
      match resolve_class v with
      | Except.ok rv => Except.ok (dset ctx "class" rv)
      | Except.error e => Except.error e
  | Option.none => Except.ok (dset ctx "class" (Val.str ""))

/-- The observable outcome of `component`: the inline not-found
fragment, a `from_string(html).render(context)` call, or an uncaught
exception. -/
inductive ComponentResult where
  | notFoundFragment (html : String)
  | rendered (body : String) (context : Ctx)
  | raised (e : String)
deriving DecidableEq

/-- `component` from `frappe/utils/jinja.py`.  `loader` models
`jenv.loader.get_source` (`none` = `TemplateNotFound`); `read` models
the external `Frontmatter.read`. -/
def component (name : String) (kwargs : Ctx)
    (loader : String → Option String)
    (read : String → Except String FMRead) : ComponentResult :=
  match loader ("templates/components/" ++ name ++ ".html") with
  | Option.none =>
      ComponentResult.notFoundFragment
        ("<pre>Component \"" ++ (name ++ "\" not found</pre>"))
  | some source =>
      match parse_front_matter_attrs_and_html source (read source) with
      | Except.error e => ComponentResult.raised e
      | Except.ok (attributes, html) =>
          match normalizeClassCtx (dupdate (dupdate [] attributes) kwargs) with
          | Except.error e => ComponentResult.raised e
          | Except.ok context => ComponentResult.rendered html context

/-! ### Theorems about `render_template` and its helpers -/

/-- C10: `render_template` with an empty template returns the empty
string for every context and every choice of `is_path` and
`safe_render`, without consulting the template environment (outcome
constructor `ok`, not a `renderedPath`/`renderedInline` engine call)
and without raising. -/
theorem render_template_empty (context : Ctx) (is_path safe_render : Bool) :
    render_template "" context is_path safe_render = RenderOutcome.ok "" :=
  rfl

/-- C2 counterexample: the template `"a.__b.html"` contains `".__"` and
is rendered with `safe_render = true`, yet `render_template` does not
raise the illegal-template failure: `guess_is_path` classifies it as a
path, so it is loaded by path before the dunder check is reached. -/
theorem render_template_dunder_cex :
    strContains "a.__b.html" ".__" = true ∧
    render_template "a.__b.html" [] false true
      = RenderOutcome.renderedPath "a.__b.html" [] ∧
    render_template "a.__b.html" [] false true ≠ RenderOutcome.threwIllegal := by
  refine ⟨by decide, by decide, by decide⟩

/-- C2 amended: for every call to `render_template` with
`safe_render = true` whose template is treated as inline source
(`is_path` not set and `guess_is_path` false) and contains `".__"`, the
call raises the illegal-template failure without attempting to compile
the template (outcome `threwIllegal`, not `renderedInline`), for every
context. -/
theorem render_template_dunder_illegal (template : String) (context : Ctx)
    (hp : guess_is_path template = false)
    (hd : strContains template ".__" = true) :
    render_template template context false true
      = RenderOutcome.threwIllegal := by
  have hne : template ≠ "" := by
    intro h
    rw [h] at hd
    exact absurd hd (by decide)
  simp [render_template, hne, hp, hd]

/-- C2 witness: the inline template `"x.__y"` is rejected. -/
theorem render_template_dunder_illegal_witness :
    render_template "x.__y" [] false true = RenderOutcome.threwIllegal :=
  render_template_dunder_illegal "x.__y" [] (by decide) (by decide)

/-- C3: contrary to the fail-open contract, a front-matter parse failure
on a source that starts with `"---"` makes
`parse_front_matter_attrs_and_html` itself raise: its handler evaluates
`'Error parsing Frontmatter in template: ' + e` with `e` an `Exception`,
a `str + Exception` addition, which raises `TypeError` instead of
logging. -/
theorem parse_front_matter_raises_on_failure (source e : String)
    (h : pyStartsWith source "---" = true) :
    parse_front_matter_attrs_and_html source (Except.error e)
      = Except.error
          "TypeError: can only concatenate str (not Exception) to str" := by
  simp [parse_front_matter_attrs_and_html, h, pyAdd]

/-- C3 witness: a concrete source whose front-matter block is malformed
YAML (the external reader raises a scanner error). -/
theorem parse_front_matter_raises_on_failure_witness :
    parse_front_matter_attrs_and_html "---\ninvalid: [yaml\n---\nbody"
      (Except.error "ScannerError")
      = Except.error
          "TypeError: can only concatenate str (not Exception) to str" :=
  parse_front_matter_raises_on_failure "---\ninvalid: [yaml\n---\nbody"
    "ScannerError" (by decide)


/-! ### Characterization of `guess_is_path` -/

theorem takeWhile_ne_sep_append (sep : Char) (a b : List Char)
    (ha : ∀ c ∈ a, c ≠ sep) :
    (a ++ sep :: b).takeWhile (fun c => c ≠ sep) = a := by
  induction a with
  | nil => simp [List.takeWhile_cons]
  | cons x a2 ih =>
      have hx : x ≠ sep := ha x (List.mem_cons_self _ _)
      rw [List.cons_append, List.takeWhile_cons, if_pos (decide_eq_true hx),
        ih (fun c hc => ha c (List.mem_cons_of_mem _ hc))]

theorem extnAfterLastDot_append (pre ext : List Char)
    (hext : ∀ c ∈ ext, c ≠ '.') :
    extnAfterLastDot (pre ++ '.' :: ext) = ext := by
  unfold extnAfterLastDot
  rw [List.reverse_append, List.reverse_cons, List.append_assoc,
    List.singleton_append]
  rw [takeWhile_ne_sep_append '.' ext.reverse pre.reverse
    (fun c hc => hext c (List.mem_reverse.1 hc))]
  exact List.reverse_reverse ext

theorem exists_last_sep (sep : Char) (r : List Char) (h : sep ∈ r) :
    ∃ t d, r = t ++ sep :: d ∧ (∀ c ∈ t, c ≠ sep) ∧
      t = r.takeWhile (fun c => c ≠ sep) := by
  induction r with
  | nil => cases h
  | cons x r2 ih =>
      by_cases hx : x = sep
      · subst hx
        exact ⟨[], r2, rfl, by simp, by simp [List.takeWhile_cons]⟩
      · have hmem : sep ∈ r2 := by
          rcases List.mem_cons.1 h with h1 | h1
          · exact absurd h1.symm hx
          · exact h1
        rcases ih hmem with ⟨t, d, hr, ht, htw⟩
        refine ⟨x :: t, d, by rw [hr, List.cons_append], ?_, ?_⟩
        · intro c hc
          rcases List.mem_cons.1 hc with rfl | hc2
          · exact hx
          · exact ht c hc2
        · rw [List.takeWhile_cons, if_pos (decide_eq_true hx), ← htw]

theorem extnAfterLastDot_decomp (cs : List Char) (h : '.' ∈ cs) :
    ∃ pre, cs = pre ++ '.' :: extnAfterLastDot cs ∧
      ∀ c ∈ extnAfterLastDot cs, c ≠ '.' := by
  rcases exists_last_sep '.' cs.reverse (List.mem_reverse.2 h) with
    ⟨t, d, hr, ht, htw⟩
  have hcs : cs = d.reverse ++ '.' :: t.reverse := by
    have h1 : cs.reverse.reverse = (t ++ '.' :: d).reverse := by rw [hr]
    rw [List.reverse_reverse] at h1
    rw [h1, List.reverse_append, List.reverse_cons, List.append_assoc,
      List.singleton_append]
  have hextn : extnAfterLastDot cs = t.reverse := by
    unfold extnAfterLastDot
    rw [← htw]
  refine ⟨d.reverse, ?_, ?_⟩
  · rw [hextn]
    exact hcs
  · rw [hextn]
    intro c hc
    exact ht c (List.mem_reverse.1 hc)

/-- C9: `guess_is_path` returns `true` iff the string has no newline and
splits as `pre ++ "." ++ ext` with `ext` dot-free and equal to one of
`html`, `css`, `scss`, `py`; in particular it is `false` for multi-line
strings and for strings with an unrecognized extension. -/
theorem guess_is_path_iff (template : String) :
    guess_is_path template = true ↔
      ('\n' ∉ template.data ∧
        ∃ pre ext, template.data = pre ++ '.' :: ext ∧
          '.' ∉ ext ∧
          (ext = "html".data ∨ ext = "css".data ∨
           ext = "scss".data ∨ ext = "py".data)) := by
  unfold guess_is_path
  by_cases h1 : '\n' ∉ template.data ∧ '.' ∈ template.data
  · rw [if_pos h1]
    simp only [decide_eq_true_eq]
    constructor
    · intro hmem
      rcases extnAfterLastDot_decomp template.data h1.2 with ⟨pre, hdec, hnd⟩
      refine ⟨h1.1, pre, extnAfterLastDot template.data, hdec,
        fun hin => hnd '.' hin rfl, ?_⟩
      simpa [List.mem_cons] using hmem
    · rintro ⟨_, pre, ext, hdec, hnd, hor⟩
      have he : extnAfterLastDot template.data = ext := by
        rw [hdec]
        exact extnAfterLastDot_append pre ext
          (fun c hc hceq => hnd (hceq ▸ hc))
      rw [he]
      simpa [List.mem_cons] using hor
  · rw [if_neg h1]
    constructor
    · intro hfalse
      exact absurd hfalse (by simp)
    · rintro ⟨hnl, pre, ext, hdec, _, _⟩
      exact absurd ⟨hnl, by rw [hdec]; simp⟩ h1


/-! ### `component` not-found behavior and `resolve_class` -/

theorem containsSub_append_right (pat a b : List Char)
    (h : containsSub pat b = true) :
    containsSub pat (a ++ b) = true := by
  induction a with
  | nil => simpa using h
  | cons x a2 ih =>
      rw [List.cons_append]
      unfold containsSub
      rw [Bool.or_eq_true]
      exact Or.inr ih

/-- C7: for every component name whose template is not found by the
loader, `component` returns the inline not-found fragment — which
contains the literal text `not found` — and does not raise. -/
theorem component_not_found (name : String) (kwargs : Ctx)
    (loader : String → Option String)
    (read : String → Except String FMRead)
    (h : loader ("templates/components/" ++ name ++ ".html") = Option.none) :
    component name kwargs loader read
      = ComponentResult.notFoundFragment
          ("<pre>Component \"" ++ (name ++ "\" not found</pre>"))
    ∧ strContains ("<pre>Component \"" ++ (name ++ "\" not found</pre>"))
        "not found" = true := by
  constructor
  · unfold component
    rw [h]
  · unfold strContains
    rw [String.data_append, String.data_append]
    apply containsSub_append_right
    apply containsSub_append_right
    decide

/-- C7 witness: the not-found fragment for the component `missing`. -/
theorem component_not_found_witness :
    component "missing" [] (fun _ => Option.none) (fun _ => Except.error "e")
      = ComponentResult.notFoundFragment
          "<pre>Component \"missing\" not found</pre>" :=
  (component_not_found "missing" [] (fun _ => Option.none)
    (fun _ => Except.error "e") rfl).1

/-- C8 counterexample: `resolve_class` on the list `["", "a"]` returns
`"a"` — the space-join `" a"` with surrounding whitespace stripped —
not the plain space-separated join `" a"` the claim describes. -/
theorem resolve_class_join_cex :
    resolve_class (Val.list [Val.str "", Val.str "a"])
      = Except.ok (Val.str "a") ∧
    resolve_class (Val.list [Val.str "", Val.str "a"])
      ≠ Except.ok (Val.str " a") := by
  refine ⟨by decide, by decide⟩

/-- Each element of `xs` resolves (recursively) to the corresponding
string of `ss`. -/
def resolvesToStrings (xs : List Val) (ss : List String) : Prop :=
  List.Forall₂ (fun v s => resolve_class v = Except.ok (Val.str s)) xs ss

theorem resolveList_of_strings (xs : List Val) (ss : List String)
    (h : resolvesToStrings xs ss) :
    resolveList xs = Except.ok (ss.map Val.str) := by
  induction h with
  | nil => rfl
  | cons hv hrest ih =>
      unfold resolveList
      rw [hv, ih]
      rfl

theorem mapM_asStr (ss : List String) :
    (ss.map Val.str).mapM asStr = Except.ok ss := by
  induction ss with
  | nil => rfl
  | cons s rest ih =>
      rw [List.map_cons, List.mapM_cons, ih]
      rfl

theorem pyJoinSpace_strings (ss : List String) :
    pyJoinSpace (List.map Val.str ss)
      = Except.ok (String.intercalate " " ss) := by
  unfold pyJoinSpace
  rw [mapM_asStr]

theorem resolve_class_list_eq (xs : List Val) (ss : List String)
    (h : resolvesToStrings xs ss) :
    resolve_class (Val.list xs)
      = Except.ok (Val.str (pyStrip (String.intercalate " " ss))) := by
  unfold resolve_class
  rw [resolveList_of_strings xs ss h]
  show (match pyJoinSpace (List.map Val.str ss) with
      | Except.error e => Except.error e
      | Except.ok j => Except.ok (Val.str (pyStrip j)))
    = Except.ok (Val.str (pyStrip (String.intercalate " " ss)))
  rw [pyJoinSpace_strings]

theorem resolve_class_tuple_eq (xs : List Val) (ss : List String)
    (h : resolvesToStrings xs ss) :
    resolve_class (Val.tuple xs)
      = Except.ok (Val.str (pyStrip (String.intercalate " " ss))) := by
  unfold resolve_class
  rw [resolveList_of_strings xs ss h]
  show (match pyJoinSpace (List.map Val.str ss) with
      | Except.error e => Except.error e
      | Except.ok j => Except.ok (Val.str (pyStrip j)))
    = Except.ok (Val.str (pyStrip (String.intercalate " " ss)))
  rw [pyJoinSpace_strings]

/-- C8 amended: `resolve_class` maps `None` to `''`, passes strings
through, maps a list or tuple whose elements recursively resolve to
strings to the space-separated join of those strings with leading and
trailing whitespace stripped, maps a dict to the likewise stripped
space-separated join of exactly the keys with truthy values, and passes
any other value through unchanged; in particular
`resolve_class ["a","b"] = "a b"` and
`resolve_class {a: True, b: False} = "a"`. -/
theorem resolve_class_spec :
    resolve_class Val.none = Except.ok (Val.str "") ∧
    (∀ s, resolve_class (Val.str s) = Except.ok (Val.str s)) ∧
    (∀ xs ss, resolvesToStrings xs ss →
      resolve_class (Val.list xs)
        = Except.ok (Val.str (pyStrip (String.intercalate " " ss)))) ∧
    (∀ xs ss, resolvesToStrings xs ss →
      resolve_class (Val.tuple xs)
        = Except.ok (Val.str (pyStrip (String.intercalate " " ss)))) ∧
    (∀ kvs, resolve_class (Val.dict kvs)
        = Except.ok (Val.str (pyStrip (String.intercalate " "
            ((kvs.filter (fun kv => truthy kv.2)).map Prod.fst))))) ∧
    (∀ b, resolve_class (Val.bool b) = Except.ok (Val.bool b)) ∧
    (∀ n, resolve_class (Val.int n) = Except.ok (Val.int n)) ∧
    resolve_class (Val.list [Val.str "a", Val.str "b"])
      = Except.ok (Val.str "a b") ∧
    resolve_class (Val.dict [("a", Val.bool true), ("b", Val.bool false)])
      = Except.ok (Val.str "a") := by
  exact ⟨rfl, fun s => rfl, resolve_class_list_eq, resolve_class_tuple_eq,
    fun kvs => rfl, fun b => rfl, fun n => rfl, by decide, by decide⟩

/-- C8 witness: the list clause applied to `["x", "y"]`. -/
theorem resolve_class_spec_witness :
    resolve_class (Val.list [Val.str "x", Val.str "y"])
      = Except.ok (Val.str "x y") :=
  resolve_class_spec.2.2.1 [Val.str "x", Val.str "y"] ["x", "y"]
    (List.Forall₂.cons rfl (List.Forall₂.cons rfl List.Forall₂.nil))


/-! ### `component` context construction -/

theorem dget_dset (d : Ctx) (k : String) (v : Val) (k2 : String) :
    dget (dset d k v) k2 = if k2 = k then some v else dget d k2 := by
  induction d with
  | nil =>
      by_cases h : k2 = k
      · simp [dset, dget, h]
      · simp [dset, dget, h, Ne.symm h]
  | cons hd rest ih =>
      obtain ⟨a, w⟩ := hd
      by_cases hak : a = k
      · by_cases h : k2 = k
        · simp [dset, dget, hak, h]
        · simp [dset, dget, hak, h, Ne.symm h]
      · by_cases h : k2 = k
        · rw [h] at ih
          simp [dset, dget, hak, h, ih]
        · simp [dset, dget, hak, h, ih]

theorem dget_eq_none_of_not_mem (d : Ctx) (k : String)
    (h : k ∉ d.map Prod.fst) : dget d k = Option.none := by
  induction d with
  | nil => rfl
  | cons hd rest ih =>
      obtain ⟨a, w⟩ := hd
      have hak : a ≠ k := by
        intro hh
        exact h (by simp [hh])
      rw [dget, if_neg hak]
      exact ih (fun hh => h (by simp [hh]))

theorem dget_dupdate (d e : Ctx) (hnd : (e.map Prod.fst).Nodup) (k : String) :
    dget (dupdate d e) k
      = match dget e k with
        | some v => some v
        | Option.none => dget d k := by
  induction e generalizing d with
  | nil => rfl
  | cons hd rest ih =>
      obtain ⟨a, w⟩ := hd
      have hnd2 : (rest.map Prod.fst).Nodup := by
        rw [List.map_cons, List.nodup_cons] at hnd
        exact hnd.2
      have hanotin : a ∉ rest.map Prod.fst := by
        rw [List.map_cons, List.nodup_cons] at hnd
        exact hnd.1
      have hstep : dupdate d ((a, w) :: rest) = dupdate (dset d a w) rest := rfl
      rw [hstep, ih (dset d a w) hnd2]
      by_cases hk : a = k
      · have h1 : dget rest k = Option.none :=
          dget_eq_none_of_not_mem rest k (by rw [← hk]; exact hanotin)
        have h2 : dget ((a, w) :: rest) k = some w := by simp [dget, hk]
        rw [h1, h2]
        show dget (dset d a w) k = some w
        rw [dget_dset, if_pos hk.symm]
      · have h2 : dget ((a, w) :: rest) k = dget rest k := by simp [dget, hk]
        rw [h2]
        cases hr : dget rest k with
        | none =>
            show dget (dset d a w) k = dget d k
            rw [dget_dset, if_neg (fun hh => hk hh.symm)]
        | some v => rfl

theorem dget_dupdate_nil (e : Ctx) (hnd : (e.map Prod.fst).Nodup)
    (k : String) : dget (dupdate [] e) k = dget e k := by
  rw [dget_dupdate [] e hnd k]
  cases dget e k <;> rfl

/-- C6 counterexample: for a component whose source has no front-matter
and a call with no keyword arguments, the merged attributes/kwargs
context is empty, yet `component` renders the body with the context
`[("class", "")]` — the `class` key is always injected — so the render
context is not equal to the attrs/kwargs merge. -/
theorem component_context_cex :
    component "x" [] (fun _ => some "<b>hi</b>") (fun _ => Except.error "e")
      = ComponentResult.rendered "<b>hi</b>" [("class", Val.str "")] ∧
    component "x" [] (fun _ => some "<b>hi</b>") (fun _ => Except.error "e")
      ≠ ComponentResult.rendered "<b>hi</b>" [] := by
  refine ⟨by decide, by decide⟩

/-- C6 amended: when the loader resolves the component's template,
(1) a source starting with `"---"` whose front-matter reads back
nonempty attributes renders the front-matter body with the context
obtained by merging the attributes with the call kwargs and then
normalizing the `class` key (replaced by `resolve_class` of its value
if present, set to `""` if absent); (2) a source not starting with
`"---"` yields empty attributes and the full source as body, rendered
with the same class-normalized merge of `[]` and the kwargs; and
(3) in the merge the kwargs take precedence on key collision: looking
up any key finds the kwargs entry first, falling back to the
attributes. -/
theorem component_context_spec (name : String) (kwargs : Ctx)
    (loader : String → Option String)
    (read : String → Except String FMRead)
    (source body : String) (attrs ctx : Ctx)
    (hload : loader ("templates/components/" ++ name ++ ".html")
      = some source) :
    (pyStartsWith source "---" = true →
      read source = Except.ok ⟨attrs, body⟩ → attrs ≠ [] →
      normalizeClassCtx (dupdate (dupdate [] attrs) kwargs)
        = Except.ok ctx →
      component name kwargs loader read
        = ComponentResult.rendered body ctx) ∧
    (pyStartsWith source "---" = false →
      normalizeClassCtx (dupdate (dupdate [] ([] : Ctx)) kwargs)
        = Except.ok ctx →
      component name kwargs loader read
        = ComponentResult.rendered source ctx) ∧
    ((attrs.map Prod.fst).Nodup → (kwargs.map Prod.fst).Nodup →
      ∀ k, dget (dupdate (dupdate [] attrs) kwargs) k
        = match dget kwargs k with
          | some v => some v
          | Option.none => dget attrs k) := by
  refine ⟨?_, ?_, ?_⟩
  · intro hs hread hne hn
    have hparse : parse_front_matter_attrs_and_html source (read source)
        = Except.ok (attrs, body) := by
      unfold parse_front_matter_attrs_and_html
      rw [hs, hread]
      simp only [Bool.not_true, Bool.false_eq_true, if_false]
      have hemp : attrs.isEmpty = false := by
        cases attrs with
        | nil => exact absurd rfl hne
        | cons a l => rfl
      simp [hemp]
    simp only [component, hload, hparse, hn]
  · intro hs hn
    have hparse : parse_front_matter_attrs_and_html source (read source)
        = Except.ok ([], source) := by
      unfold parse_front_matter_attrs_and_html
      rw [hs]
      rfl
    simp only [component, hload, hparse]
    simp only [dupdate] at hn
    simp only [dupdate, hn]
  · intro ha hk k
    rw [dget_dupdate (dupdate [] attrs) kwargs hk k,
      dget_dupdate_nil attrs ha k]

/-- C6 witness: a component with front-matter attribute `title` and a
kwarg `x`; the render context is the merge plus the injected empty
`class`. -/
theorem component_context_spec_witness :
    component "card" [("x", Val.str "y")]
      (fun _ => some "---\ntitle: T\n---\nBODY")
      (fun _ => Except.ok ⟨[("title", Val.str "T")], "BODY"⟩)
      = ComponentResult.rendered "BODY"
          [("title", Val.str "T"), ("x", Val.str "y"),
            ("class", Val.str "")] :=
  (component_context_spec "card" [("x", Val.str "y")]
    (fun _ => some "---\ntitle: T\n---\nBODY")
    (fun _ => Except.ok ⟨[("title", Val.str "T")], "BODY"⟩)
    "---\ntitle: T\n---\nBODY" "BODY" [("title", Val.str "T")]
    [("title", Val.str "T"), ("x", Val.str "y"), ("class", Val.str "")]
    rfl).1 (by decide) rfl (by simp) (by decide)

end Jinja
